import Mathlib

set_option maxHeartbeats 1000000

/-!
Shallow embedding of the quiz-question generator and distractor-sampling
core of the `japanese-word-display` extension (`src/extension.ts`), together
with the vocabulary store substrate it depends on.

JavaScript `Math.random()` draws are modelled by explicit streams of natural
numbers: each call site `Math.floor(Math.random() * n)` becomes `r % n` for
the next number `r` of the stream, which ranges over exactly the indices
`0 .. n-1` as `r` ranges over `Nat`.  A JavaScript value that may be
`undefined` (indexing an empty array) is modelled by `Option String`.
-/

/-- A value of TypeScript type `string | string[]`, as used by the fields
`japanese`, `reading`, `kana`, `chinese` and `partOfSpeech` of the
`JapaneseWord` interface. -/
inductive JStr where
  | single (s : String)
  | multi (ss : List String)
deriving DecidableEq, Repr, Inhabited

/-- The projection `Array.isArray(x) ? x[0] : x` used throughout the source;
`none` models the JavaScript `undefined` produced by indexing an empty
array. -/
def JStr.first? : JStr → Option String
  | .single s => some s
  | .multi ss => ss.head?

/-- One entry of the `examples` field: a Japanese example sentence and its
Chinese translation. -/
structure JExample where
  japanese : String
  chinese : String
deriving DecidableEq, Repr, Inhabited

/-- The `JapaneseWord` interface of `src/extension.ts`. -/
structure JapaneseWord where
  id : String
  japanese : JStr
  reading : JStr
  kana : JStr
  chinese : JStr
  category : String
  level : Option String := none
  partOfSpeech : Option JStr := none
  examples : Option (List JExample) := none
deriving DecidableEq, Repr, Inhabited

/-- JavaScript template-literal rendering of a possibly-`undefined` string. -/
def jsToString : Option String → String
  | some s => s
  | none => "undefined"

/-- Severity of a user-facing notification
(`showInformationMessage` / `showWarningMessage` / `showErrorMessage`). -/
inductive Severity where
  | info
  | warning
  | error
deriving DecidableEq, Repr

/-- A user-facing notification raised through the `vscode.window` API. -/
structure Notification where
  severity : Severity
  message : String
deriving DecidableEq, Repr

/-- The `VocabularyResponse` interface: `success` flag and a mapping from
level name to the raw word records of that level. -/
structure VocabularyResponse where
  success : Bool
  data : List (String × List JapaneseWord)
deriving DecidableEq, Repr

/-- Outcome of `makeApiRequest` followed by `JSON.parse`: the request can
reject (network error, timeout, non-200 status), the parse can throw, or a
parsed payload is obtained. -/
inductive FetchOutcome where
  | requestError
  | parseError
  | payload (response : VocabularyResponse)
deriving DecidableEq, Repr

/-- The fixed fallback vocabulary installed by `loadDefaultWords`. -/
def loadDefaultWords : List JapaneseWord :=
  [ { id := "1", japanese := .single "学校", reading := .single "がっこう",
      kana := .single "がっこう", chinese := .multi ["學校"],
      category := "名詞", level := some "N5" },
    { id := "2", japanese := .single "勉強", reading := .single "べんきょう",
      kana := .single "べんきょう", chinese := .multi ["學習", "念書"],
      category := "名詞", level := some "N4" },
    { id := "3", japanese := .single "先生", reading := .single "せんせい",
      kana := .single "せんせい", chinese := .multi ["老師"],
      category := "名詞", level := some "N5" } ]

/-- `loadVocabularyData`: on a successful payload the levels are flattened,
attaching the level key to each word; any request error, parse error or
non-success payload falls into the `catch` block, which raises one
`showErrorMessage` notification and installs the fallback words.  The result
is the new contents of `this.words` together with the notifications
raised. -/
def loadVocabularyData (outcome : FetchOutcome) :
    List JapaneseWord × List Notification :=
  match outcome with
  | .payload response =>
    if response.success then
      ((response.data.map
          (fun lw => lw.2.map (fun word => { word with level := some lw.1 }))).flatten,
        [])
    else
      (loadDefaultWords,
        [{ severity := .error, message := "無法載入日文單字數據，使用備用單字" }])
  | _ =>
    (loadDefaultWords,
      [{ severity := .error, message := "無法載入日文單字數據，使用備用單字" }])

/-- Whether the load attempt fails (lands in the `catch` block): the request
rejected, the parse threw, or the payload carried `success: false`. -/
def loadFails : FetchOutcome → Bool
  | .payload response => !response.success
  | _ => true

/-- `getRandomWord`: `null` on an empty collection, otherwise the entry at a
random index. -/
def getRandomWord (words : List JapaneseWord) (r : Nat) : Option JapaneseWord :=
  if words.length = 0 then none
  else words[r % words.length]?

/-- `getWordsCount`: the size of the current collection. -/
def getWordsCount (words : List JapaneseWord) : Nat :=
  words.length

/-- `getRandomWordForQuiz` simply delegates to `getRandomWord`. -/
def getRandomWordForQuiz (words : List JapaneseWord) (r : Nat) :
    Option JapaneseWord :=
  getRandomWord words r

/-- The shared sampling loop of `getRandomMeanings`, `getRandomReadings` and
`getRandomWords`:
`while (acc.length < count && otherWords.length > 0)` draw a random word from
`otherWords`, project it, append the projected value to `acc` unless already
present, and splice the drawn word out of `otherWords` in every iteration.
The loop runs at most `otherWords.length` times because the pool shrinks by
one on every draw; `fuel` is initialised to the pool size by the wrapper
`sample` and, as proved below, any fuel at least the pool size yields the
same result. -/
def sampleLoop (proj : JapaneseWord → Option String) (rng : Nat → Nat)
    (count : Nat) :
    Nat → Nat → List JapaneseWord → List (Option String) → List (Option String)
  | 0, _, _, acc => acc
  | fuel + 1, k, otherWords, acc =>
    if h : acc.length < count ∧ 0 < otherWords.length then
      have hlt : rng k % otherWords.length < otherWords.length := Nat.mod_lt _ h.2
      let randomWord := otherWords[rng k % otherWords.length]
      let value := proj randomWord
      let acc2 := if value ∈ acc then acc else acc ++ [value]
      sampleLoop proj rng count fuel (k + 1) (otherWords.erase randomWord) acc2
    else acc

/-- Iteration count of the sampling loop, mirroring `sampleLoop`. -/
def sampleSteps (proj : JapaneseWord → Option String) (rng : Nat → Nat)
    (count : Nat) :
    Nat → Nat → List JapaneseWord → List (Option String) → Nat
  | 0, _, _, _ => 0
  | fuel + 1, k, otherWords, acc =>
    if h : acc.length < count ∧ 0 < otherWords.length then
      have hlt : rng k % otherWords.length < otherWords.length := Nat.mod_lt _ h.2
      let randomWord := otherWords[rng k % otherWords.length]
      let value := proj randomWord
      let acc2 := if value ∈ acc then acc else acc ++ [value]
      sampleSteps proj rng count fuel (k + 1) (otherWords.erase randomWord) acc2 + 1
    else 0

/-- The generic distractor sampler: filter out the excluded word, then run
the sampling loop on the local filtered copy. -/
def sample (proj : JapaneseWord → Option String) (words : List JapaneseWord)
    (rng : Nat → Nat) (excludeId : String) (count : Nat) :
    List (Option String) :=
  let otherWords := words.filter (fun word => word.id ≠ excludeId)
  sampleLoop proj rng count otherWords.length 0 otherWords []

/-- `getRandomMeanings`: sampler over the first-Chinese-meaning projection. -/
def getRandomMeanings (words : List JapaneseWord) (rng : Nat → Nat)
    (excludeId : String) (count : Nat) : List (Option String) :=
  sample (fun w => w.chinese.first?) words rng excludeId count

/-- `getRandomReadings`: sampler over the first-reading projection. -/
def getRandomReadings (words : List JapaneseWord) (rng : Nat → Nat)
    (excludeId : String) (count : Nat) : List (Option String) :=
  sample (fun w => w.reading.first?) words rng excludeId count

/-- `getRandomWords`: sampler over the first-written-form projection. -/
def getRandomWords (words : List JapaneseWord) (rng : Nat → Nat)
    (excludeId : String) (count : Nat) : List (Option String) :=
  sample (fun w => w.japanese.first?) words rng excludeId count

/-- One quiz option: `{ text, isCorrect }`. -/
structure QuizOption where
  text : Option String
  isCorrect : Bool
deriving DecidableEq, Repr, Inhabited

/-- The destructuring swap `[xs[i], xs[j]] = [xs[j], xs[i]]`. -/
def listSwap {α : Type} (xs : List α) (i j : Nat) : List α :=
  match xs[i]?, xs[j]? with
  | some a, some b => (xs.set i b).set j a
  | _, _ => xs

/-- The in-place shuffle loop
`for (let i = xs.length - 1; i > 0; i--) swap(i, rand(0..i))`, unrolled from
the loop index downwards. -/
def shuffleAux {α : Type} (r : Nat → Nat) : List α → Nat → List α
  | xs, 0 => xs
  | xs, i + 1 => shuffleAux r (listSwap xs (i + 1) (r (i + 1) % (i + 2))) i

/-- The option shuffle used by `generateQuizQuestion` and
`showExampleQuiz`. -/
def shuffleOptions {α : Type} (r : Nat → Nat) (xs : List α) : List α :=
  shuffleAux r xs (xs.length - 1)

/-- The Fisher-Yates shuffle as worded by the specification: for index `i`
from last down to 1, swap element `i` with the element at index `choice i`,
where `choice i` lies in `[0, i]`.  Stated against an abstract choice
function; the implementation refines it with `choice i = r i % (i + 1)`. -/
def fisherYatesSpecAux {α : Type} (choice : Nat → Nat) : List α → Nat → List α
  | xs, 0 => xs
  | xs, i + 1 => fisherYatesSpecAux choice (listSwap xs (i + 1) (choice (i + 1))) i

/-- Top-level spec-worded Fisher-Yates shuffle. -/
def fisherYatesSpec {α : Type} (choice : Nat → Nat) (xs : List α) : List α :=
  fisherYatesSpecAux choice xs (xs.length - 1)

/-- The object returned by `generateQuizQuestion`. -/
structure QuizQuestion where
  questionText : String
  options : List QuizOption
  correctAnswer : Option String
  targetWord : JapaneseWord
deriving DecidableEq, Repr, Inhabited

/-- The `questionTypes` array of `generateQuizQuestion`. -/
def questionTypes : List String := ["meaning", "reading", "word"]

/-- `generateQuizQuestion`: `null` on an empty store, otherwise pick a random
target word, pick a random question type, derive prompt, correct answer and
distractors, build the tagged option list and shuffle it in place.
`rt` drives the target draw, `rq` the question-type draw, `rs` the draws
inside the distractor sampler, and `rsh` the shuffle. -/
def generateQuizQuestion (words : List JapaneseWord) (rt rq : Nat)
    (rs rsh : Nat → Nat) : Option QuizQuestion :=
  if getWordsCount words = 0 then none
  else
    match getRandomWordForQuiz words rt with
    | none => none
    | some targetWord =>
      let questionType := (questionTypes[rq % 3]?).getD ""
      let qca : String × Option String × List (Option String) :=
        if questionType = "meaning" then
          let j := jsToString targetWord.japanese.first?
          (s!"請選擇「{j}」的正確意思：", targetWord.chinese.first?,
            getRandomMeanings words rs targetWord.id 3)
        else if questionType = "reading" then
          let j := jsToString targetWord.japanese.first?
          (s!"請選擇「{j}」的正確讀音：", targetWord.reading.first?,
            getRandomReadings words rs targetWord.id 3)
        else if questionType = "word" then
          let m := jsToString targetWord.chinese.first?
          (s!"哪個漢字的意思是「{m}」？", targetWord.japanese.first?,
            getRandomWords words rs targetWord.id 3)
        else ("", some "", [])
      let options : List QuizOption :=
        { text := qca.2.1, isCorrect := true } ::
          qca.2.2.map (fun answer => { text := answer, isCorrect := false })
      some { questionText := qca.1, options := shuffleOptions rsh options,
             correctAnswer := qca.2.1, targetWord := targetWord }

/-- `getWordsWithExamples`: the words whose `examples` field is present and
non-empty. -/
def getWordsWithExamples (words : List JapaneseWord) : List JapaneseWord :=
  words.filter (fun word =>
    match word.examples with
    | some es => 0 < es.length
    | none => false)

/-- The example-sentence prompt template of `showExampleQuiz`. -/
def exampleQuestionText (targetWord : JapaneseWord) (ex : JExample) : String :=
  let j := jsToString targetWord.japanese.first?
  let exj := ex.japanese
  let exc := ex.chinese
  s!"以下例句中的「{j}」是什麼意思？\n\n例句：{exj}\n{exc}"

/-- The question object assembled by `showExampleQuiz`. -/
structure ExampleQuiz where
  questionText : String
  options : List QuizOption
  correctAnswer : Option String
  targetWord : JapaneseWord
  randomExample : JExample
deriving DecidableEq, Repr, Inhabited

/-- The question-construction core of `showExampleQuiz`: guard on an empty
store, guard on the absence of words with examples, pick a random word among
those with examples, pick a random example of it, take its first meaning as
correct answer, draw 3 meaning distractors excluding the target, tag and
shuffle the options, and embed the example pair in the prompt.  `rw` drives
the target draw, `re` the example draw, `rs` the sampler and `rsh` the
shuffle. -/
def showExampleQuiz (words : List JapaneseWord) (rw re : Nat)
    (rs rsh : Nat → Nat) : Option ExampleQuiz :=
  if getWordsCount words = 0 then none
  else
    let wordsWithExamples := getWordsWithExamples words
    if h : wordsWithExamples.length = 0 then none
    else
      have hlt : rw % wordsWithExamples.length < wordsWithExamples.length :=
        Nat.mod_lt _ (Nat.pos_of_ne_zero h)
      let targetWord := wordsWithExamples[rw % wordsWithExamples.length]
      let examplesList := targetWord.examples.getD []
      match (examplesList[re % examplesList.length]? : Option JExample) with
      | none => none
      | some randomExample =>
        let correctAnswer := targetWord.chinese.first?
        let wrongAnswers := getRandomMeanings words rs targetWord.id 3
        let options : List QuizOption :=
          { text := correctAnswer, isCorrect := true } ::
            wrongAnswers.map (fun answer => { text := answer, isCorrect := false })
        some { questionText := exampleQuestionText targetWord randomExample,
               options := shuffleOptions rsh options,
               correctAnswer := correctAnswer,
               targetWord := targetWord,
               randomExample := randomExample }

/-- The manager state visible to the sampler: the `this.words` field. -/
structure ManagerState where
  words : List JapaneseWord
deriving DecidableEq, Repr

/-- State-passing rendering of the sampling loop: the splice mutates only the
local `otherWords` copy, and the manager state is threaded through every
iteration unchanged, exactly as `this.words` is never assigned inside
`getRandomMeanings`.  Returns the final manager state, the final local pool
and the collected values. -/
def sampleLoopSt (proj : JapaneseWord → Option String) (rng : Nat → Nat)
    (count : Nat) :
    Nat → Nat → ManagerState → List JapaneseWord → List (Option String) →
      ManagerState × List JapaneseWord × List (Option String)
  | 0, _, st, otherWords, acc => (st, otherWords, acc)
  | fuel + 1, k, st, otherWords, acc =>
    if h : acc.length < count ∧ 0 < otherWords.length then
      have hlt : rng k % otherWords.length < otherWords.length := Nat.mod_lt _ h.2
      let randomWord := otherWords[rng k % otherWords.length]
      let value := proj randomWord
      let acc2 := if value ∈ acc then acc else acc ++ [value]
      sampleLoopSt proj rng count fuel (k + 1) st (otherWords.erase randomWord) acc2
    else (st, otherWords, acc)

/-- Stateful rendering of the sampler: filter a local copy out of the state's
word list, then run the state-passing loop.  Returns the final manager state
and the sampled values. -/
def sampleSt (proj : JapaneseWord → Option String) (st : ManagerState)
    (rng : Nat → Nat) (excludeId : String) (count : Nat) :
    ManagerState × List (Option String) :=
  let otherWords := st.words.filter (fun word => word.id ≠ excludeId)
  let r := sampleLoopSt proj rng count otherWords.length 0 st otherWords []
  (r.1, r.2.2)

/-! ### Shuffle permutation lemmas -/

theorem cons_set_perm {α : Type} (t : List α) (m : Nat) (g x : α)
    (hm : t[m]? = some g) : (g :: t.set m x).Perm (x :: t) := by
  induction t generalizing m with
  | nil => simp at hm
  | cons y u ih =>
    cases m with
    | zero =>
      simp only [List.getElem?_cons_zero, Option.some.injEq] at hm
      subst hm
      simpa using List.Perm.swap x y u
    | succ m =>
      simp only [List.getElem?_cons_succ] at hm
      simp only [List.set_cons_succ]
      exact ((List.Perm.swap y g _).trans (List.Perm.cons y (ih m hm))).trans
        (List.Perm.swap x y u)

theorem set_set_perm_of_getElem {α : Type} (xs : List α) (i j : Nat) (a b : α)
    (ha : xs[i]? = some a) (hb : xs[j]? = some b) :
    ((xs.set i b).set j a).Perm xs := by
  induction xs generalizing i j with
  | nil => simp at ha
  | cons x t ih =>
    cases i with
    | zero =>
      simp only [List.getElem?_cons_zero, Option.some.injEq] at ha
      subst ha
      cases j with
      | zero => simp
      | succ m =>
        simp only [List.getElem?_cons_succ] at hb
        simp only [List.set_cons_zero, List.set_cons_succ]
        exact cons_set_perm t m b x hb
    | succ m =>
      cases j with
      | zero =>
        simp only [List.getElem?_cons_zero, Option.some.injEq] at hb
        subst hb
        simp only [List.getElem?_cons_succ] at ha
        simp only [List.set_cons_succ, List.set_cons_zero]
        exact cons_set_perm t m a x ha
      | succ k2 =>
        simp only [List.getElem?_cons_succ] at ha hb
        simp only [List.set_cons_succ]
        exact List.Perm.cons x (ih m k2 ha hb)

theorem listSwap_perm {α : Type} (xs : List α) (i j : Nat) :
    (listSwap xs i j).Perm xs := by
  unfold listSwap
  split
  · rename_i a b ha hb
    exact set_set_perm_of_getElem xs i j a b ha hb
  · exact List.Perm.refl xs

theorem shuffleAux_perm {α : Type} (r : Nat → Nat) (n : Nat) :
    ∀ xs : List α, (shuffleAux r xs n).Perm xs := by
  induction n with
  | zero => intro xs; exact List.Perm.refl xs
  | succ i ih =>
    intro xs
    rw [shuffleAux]
    exact (ih _).trans (listSwap_perm xs (i + 1) _)

theorem shuffleOptions_perm {α : Type} (r : Nat → Nat) (xs : List α) :
    (shuffleOptions r xs).Perm xs :=
  shuffleAux_perm r (xs.length - 1) xs

theorem shuffleAux_eq_spec {α : Type} (r : Nat → Nat) (n : Nat) :
    ∀ xs : List α, shuffleAux r xs n = fisherYatesSpecAux (fun i => r i % (i + 1)) xs n := by
  induction n with
  | zero => intro xs; rfl
  | succ i ih =>
    intro xs
    rw [shuffleAux, fisherYatesSpecAux]
    exact ih _

theorem shuffleOptions_eq_spec {α : Type} (r : Nat → Nat) (xs : List α) :
    shuffleOptions r xs = fisherYatesSpec (fun i => r i % (i + 1)) xs :=
  shuffleAux_eq_spec r (xs.length - 1) xs

/-! ### Sampling-loop invariants -/

theorem sampleLoop_nil (proj : JapaneseWord → Option String) (rng : Nat → Nat)
    (count fuel k : Nat) (acc : List (Option String)) :
    sampleLoop proj rng count fuel k [] acc = acc := by
  cases fuel with
  | zero => rfl
  | succ fuel => simp [sampleLoop]

theorem sampleLoop_nodup (proj : JapaneseWord → Option String) (rng : Nat → Nat)
    (count : Nat) (fuel : Nat) :
    ∀ (k : Nat) (ow : List JapaneseWord) (acc : List (Option String)),
      acc.Nodup → (sampleLoop proj rng count fuel k ow acc).Nodup := by
  induction fuel with
  | zero => intro k ow acc h; simpa [sampleLoop] using h
  | succ fuel ih =>
    intro k ow acc h
    rw [sampleLoop]
    split
    · apply ih
      dsimp only
      split
      · exact h
      · next hv => simp [List.nodup_append, h, hv]
    · exact h

theorem sampleLoop_mem (proj : JapaneseWord → Option String) (rng : Nat → Nat)
    (count : Nat) (P : Option String → Prop) (fuel : Nat) :
    ∀ (k : Nat) (ow : List JapaneseWord) (acc : List (Option String)),
      (∀ v ∈ acc, P v) → (∀ w ∈ ow, P (proj w)) →
      ∀ v ∈ sampleLoop proj rng count fuel k ow acc, P v := by
  induction fuel with
  | zero => intro k ow acc hacc _ v hv; rw [sampleLoop] at hv; exact hacc v hv
  | succ fuel ih =>
    intro k ow acc hacc how v hv
    rw [sampleLoop] at hv
    split at hv
    · next hcond =>
      refine ih (k + 1) _ _ ?_ ?_ v hv
      · dsimp only
        split
        · exact hacc
        · intro u hu
          rcases List.mem_append.1 hu with hu | hu
          · exact hacc u hu
          · rcases List.mem_singleton.1 hu with rfl
            exact how _ (List.getElem_mem _)
      · intro w hw
        exact how w (List.erase_subset _ _ hw)
    · exact hacc v hv

theorem sampleLoop_length_le (proj : JapaneseWord → Option String) (rng : Nat → Nat)
    (count : Nat) (fuel : Nat) :
    ∀ (k : Nat) (ow : List JapaneseWord) (acc : List (Option String)),
      acc.length ≤ count → (sampleLoop proj rng count fuel k ow acc).length ≤ count := by
  induction fuel with
  | zero => intro k ow acc h; simpa [sampleLoop] using h
  | succ fuel ih =>
    intro k ow acc h
    rw [sampleLoop]
    split
    · next hcond =>
      apply ih
      dsimp only
      split
      · exact h
      · simp only [List.length_append, List.length_singleton]
        omega
    · exact h

theorem sampleLoop_fuel_irrel (proj : JapaneseWord → Option String) (rng : Nat → Nat)
    (count : Nat) (fuel : Nat) :
    ∀ (fuel2 k : Nat) (ow : List JapaneseWord) (acc : List (Option String)),
      ow.length ≤ fuel → ow.length ≤ fuel2 →
      sampleLoop proj rng count fuel k ow acc = sampleLoop proj rng count fuel2 k ow acc := by
  induction fuel with
  | zero =>
    intro fuel2 k ow acc h1 _
    rcases List.length_eq_zero.1 (Nat.le_zero.1 h1) with rfl
    rw [sampleLoop_nil, sampleLoop_nil]
  | succ fuel ih =>
    intro fuel2 k ow acc h1 h2
    cases fuel2 with
    | zero =>
      rcases List.length_eq_zero.1 (Nat.le_zero.1 h2) with rfl
      rw [sampleLoop_nil, sampleLoop_nil]
    | succ fuel2 =>
      rw [sampleLoop, sampleLoop]
      split
      · next hcond =>
        apply ih
        · rw [List.length_erase_of_mem (List.getElem_mem _)]
          omega
        · rw [List.length_erase_of_mem (List.getElem_mem _)]
          omega
      · rfl

theorem sampleSteps_le (proj : JapaneseWord → Option String) (rng : Nat → Nat)
    (count : Nat) (fuel : Nat) :
    ∀ (k : Nat) (ow : List JapaneseWord) (acc : List (Option String)),
      sampleSteps proj rng count fuel k ow acc ≤ ow.length := by
  induction fuel with
  | zero => intro k ow acc; simp [sampleSteps]
  | succ fuel ih =>
    intro k ow acc
    rw [sampleSteps]
    split
    · next hcond =>
      have hlt : rng k % ow.length < ow.length := Nat.mod_lt _ hcond.2
      have h1 := ih (k + 1) (ow.erase (ow[rng k % ow.length]))
      have h2 : (ow.erase (ow[rng k % ow.length])).length = ow.length - 1 :=
        List.length_erase_of_mem (List.getElem_mem _)
      exact le_trans (Nat.add_le_add_right (h1 _) 1) (by omega)
    · exact Nat.zero_le _

theorem sampleLoopSt_frame (proj : JapaneseWord → Option String) (rng : Nat → Nat)
    (count : Nat) (fuel : Nat) :
    ∀ (k : Nat) (st : ManagerState) (ow : List JapaneseWord) (acc : List (Option String)),
      (sampleLoopSt proj rng count fuel k st ow acc).1 = st ∧
      (sampleLoopSt proj rng count fuel k st ow acc).2.2 =
        sampleLoop proj rng count fuel k ow acc := by
  induction fuel with
  | zero => intro k st ow acc; exact ⟨rfl, rfl⟩
  | succ fuel ih =>
    intro k st ow acc
    rw [sampleLoopSt, sampleLoop]
    split
    · exact ih _ _ _ _
    · exact ⟨rfl, rfl⟩

theorem sampleLoop_length_eq (proj : JapaneseWord → Option String) (rng : Nat → Nat)
    (count : Nat) (fuel : Nat) :
    ∀ (k : Nat) (ow : List JapaneseWord) (acc : List (Option String)),
      acc.Nodup → acc.length ≤ count → ow.length ≤ fuel →
      (sampleLoop proj rng count fuel k ow acc).length =
        min count (acc.toFinset ∪ (ow.map proj).toFinset).card := by
  induction fuel with
  | zero =>
    intro k ow acc hnd hle hf
    rcases List.length_eq_zero.1 (Nat.le_zero.1 hf) with rfl
    rw [sampleLoop_nil]
    simp [List.toFinset_card_of_nodup hnd, Nat.min_eq_right hle]
  | succ fuel ih =>
    intro k ow acc hnd hle hf
    rw [sampleLoop]
    split
    · next hcond =>
      have hlt : rng k % ow.length < ow.length := Nat.mod_lt _ hcond.2
      have hw : ow[rng k % ow.length] ∈ ow := List.getElem_mem _
      have hperm : ow.Perm (ow[rng k % ow.length] :: ow.erase (ow[rng k % ow.length])) :=
        List.perm_cons_erase hw
      have hmapTF : (ow.map proj).toFinset =
          insert (proj (ow[rng k % ow.length]))
            (((ow.erase (ow[rng k % ow.length])).map proj).toFinset) := by
        rw [List.toFinset_eq_of_perm _ _ (hperm.map proj)]
        simp
      have herase : (ow.erase (ow[rng k % ow.length])).length = ow.length - 1 :=
        List.length_erase_of_mem hw
      dsimp only
      split
      · next hv =>
        rw [ih (k + 1) _ acc hnd hle (by omega)]
        congr 2
        rw [hmapTF, Finset.union_insert,
          Finset.insert_eq_self.2
            (Finset.mem_union_left _ (List.mem_toFinset.2 hv))]
      · next hv =>
        rw [ih (k + 1) _ (acc ++ [proj (ow[rng k % ow.length])])
          (by simp [List.nodup_append, hnd, hv]) (by simp; omega) (by omega)]
        congr 2
        rw [hmapTF, Finset.union_insert]
        simp only [List.toFinset_append, List.toFinset_cons, List.toFinset_nil]
        rw [Finset.union_comm acc.toFinset, Finset.insert_union]
        simp [Finset.insert_eq]
    · next hcond =>
      have : acc.length = count ∨ ow.length = 0 := by
        rcases Nat.lt_or_ge acc.length count with hlt2 | hge
        · right
          by_contra hne
          exact hcond ⟨hlt2, Nat.pos_of_ne_zero hne⟩
        · left; omega
      rcases this with hacc | how
      · have hsub : acc.toFinset ⊆ acc.toFinset ∪ (ow.map proj).toFinset :=
          Finset.subset_union_left
        have hcard : count ≤ (acc.toFinset ∪ (ow.map proj).toFinset).card := by
          calc count = acc.length := hacc.symm
            _ = acc.toFinset.card := (List.toFinset_card_of_nodup hnd).symm
            _ ≤ _ := Finset.card_le_card hsub
        rw [hacc, Nat.min_eq_left hcard]
      · rcases List.length_eq_zero.1 how with rfl
        simp [List.toFinset_card_of_nodup hnd, Nat.min_eq_right hle]

/-! ### Claim theorems -/

theorem getRandomWord_eq_getElem (words : List JapaneseWord) (r : Nat)
    (h : words ≠ []) :
    ∃ w, getRandomWord words r = some w ∧ w ∈ words := by
  have hpos : 0 < words.length := List.length_pos.2 h
  have hlt : r % words.length < words.length := Nat.mod_lt _ hpos
  refine ⟨words[r % words.length], ?_, List.getElem_mem _⟩
  unfold getRandomWord
  rw [if_neg (by omega)]
  exact List.getElem?_eq_getElem hlt

/-- C7: `pickRandom` (`getRandomWord`) returns `none` on the empty collection
and some member of the collection on every non-empty collection. -/
theorem getRandomWord_some_mem_iff_nonempty (words : List JapaneseWord) (r : Nat) :
    (words = [] → getRandomWord words r = none) ∧
    (words ≠ [] → ∃ w, getRandomWord words r = some w ∧ w ∈ words) := by
  constructor
  · rintro rfl; rfl
  · exact getRandomWord_eq_getElem words r

theorem getRandomWord_some_mem_iff_nonempty_witness :
    getRandomWord [] 0 = none ∧ (getRandomWord loadDefaultWords 0).isSome = true := by
  refine ⟨(getRandomWord_some_mem_iff_nonempty [] 0).1 rfl, ?_⟩
  obtain ⟨w, hw, _⟩ := (getRandomWord_some_mem_iff_nonempty loadDefaultWords 0).2 (by decide)
  simp [hw]

/-- C3: the sampler's result has no duplicate values and length at most `count`. -/
theorem sample_nodup_and_length_le (proj : JapaneseWord → Option String)
    (words : List JapaneseWord) (rng : Nat → Nat) (excludeId : String) (count : Nat) :
    (sample proj words rng excludeId count).Nodup ∧
    (sample proj words rng excludeId count).length ≤ count := by
  unfold sample
  exact ⟨sampleLoop_nodup proj rng count _ 0 _ [] List.nodup_nil,
         sampleLoop_length_le proj rng count _ 0 _ [] (Nat.zero_le _)⟩

/-- C10: the sampler's result length is exactly the minimum of `count` and the
number of distinct projected values among the non-excluded words. -/
theorem sample_length_eq_min (proj : JapaneseWord → Option String)
    (words : List JapaneseWord) (rng : Nat → Nat) (excludeId : String) (count : Nat) :
    (sample proj words rng excludeId count).length =
      min count ((words.filter (fun w => w.id ≠ excludeId)).map proj).toFinset.card := by
  unfold sample
  rw [sampleLoop_length_eq proj rng count _ 0 _ [] List.nodup_nil (Nat.zero_le _)
    (Nat.le_refl _)]
  simp

/-- C2 amended: every sampled value is the projection of some word of the
store whose id differs from `excludeId`. -/
theorem sample_values_from_non_excluded (proj : JapaneseWord → Option String)
    (words : List JapaneseWord) (rng : Nat → Nat) (excludeId : String) (count : Nat) :
    ∀ v ∈ sample proj words rng excludeId count,
      ∃ w, w ∈ words ∧ w.id ≠ excludeId ∧ proj w = v := by
  intro v hv
  unfold sample at hv
  refine sampleLoop_mem proj rng count
    (fun v => ∃ w, w ∈ words ∧ w.id ≠ excludeId ∧ proj w = v) _ 0 _ [] (by simp) ?_ v hv
  intro w hw
  rcases List.mem_filter.1 hw with ⟨hmem, hid⟩
  exact ⟨w, hmem, by simpa using hid, rfl⟩

def cexWordA : JapaneseWord :=
  { id := "1", japanese := .single "犬", reading := .single "いぬ",
    kana := .single "いぬ", chinese := .multi ["狗"], category := "名詞" }

def cexWordB : JapaneseWord :=
  { id := "2", japanese := .single "小犬", reading := .single "こいぬ",
    kana := .single "こいぬ", chinese := .multi ["狗"], category := "名詞" }

/-- C2 counterexample: with two words sharing the projected value 狗, sampling
with the first word excluded still returns that word's projected value. -/
theorem sample_can_return_excluded_words_value :
    cexWordA.id = "1" ∧ cexWordA ∈ [cexWordA, cexWordB] ∧
    cexWordA.chinese.first? ∈
      sample (fun w => w.chinese.first?) [cexWordA, cexWordB] (fun _ => 0) "1" 3 := by
  decide

theorem sample_values_from_non_excluded_witness :
    some "狗" ∈ ([cexWordA, cexWordB].filter (fun w => w.id ≠ "1")).map
      (fun w => w.chinese.first?) := by
  obtain ⟨w, hmem, hid, hproj⟩ := sample_values_from_non_excluded
    (fun w => w.chinese.first?) [cexWordA, cexWordB] (fun _ => 0) "1" 3
    (some "狗") (by decide)
  exact List.mem_map.2 ⟨w, List.mem_filter.2 ⟨hmem, by simpa using hid⟩, hproj⟩

/-- C5: the sampling loop performs at most pool-size iterations, and pool-size
fuel already computes the final result: any fuel at least the pool size gives
the same answer. -/
theorem sample_terminates_within_pool_size (proj : JapaneseWord → Option String)
    (words : List JapaneseWord) (rng : Nat → Nat) (excludeId : String) (count : Nat) :
    sampleSteps proj rng count (words.filter (fun w => w.id ≠ excludeId)).length 0
        (words.filter (fun w => w.id ≠ excludeId)) [] ≤
      (words.filter (fun w => w.id ≠ excludeId)).length ∧
    ∀ fuel, (words.filter (fun w => w.id ≠ excludeId)).length ≤ fuel →
      sampleLoop proj rng count fuel 0 (words.filter (fun w => w.id ≠ excludeId)) [] =
        sample proj words rng excludeId count := by
  constructor
  · exact sampleSteps_le proj rng count _ 0 _ []
  · intro fuel hf
    unfold sample
    exact sampleLoop_fuel_irrel proj rng count fuel _ 0 _ [] hf (Nat.le_refl _)

theorem sample_terminates_within_pool_size_witness :
    sampleLoop (fun w => w.chinese.first?) (fun _ => 0) 3 5 0
        (loadDefaultWords.filter (fun w => w.id ≠ "1")) [] =
      sample (fun w => w.chinese.first?) loadDefaultWords (fun _ => 0) "1" 3 :=
  (sample_terminates_within_pool_size (fun w => w.chinese.first?) loadDefaultWords
    (fun _ => 0) "1" 3).2 5 (by decide)

/-- C9: the sampler has no side effect on the store: the manager state after
the call is the state before it, and the values returned are those of the
pure sampler. -/
theorem sampleSt_preserves_store (proj : JapaneseWord → Option String)
    (st : ManagerState) (rng : Nat → Nat) (excludeId : String) (count : Nat) :
    (sampleSt proj st rng excludeId count).1 = st ∧
    (sampleSt proj st rng excludeId count).2 =
      sample proj st.words rng excludeId count := by
  unfold sampleSt sample
  exact ⟨(sampleLoopSt_frame proj rng count _ 0 st _ []).1,
         (sampleLoopSt_frame proj rng count _ 0 st _ []).2⟩

/-- C4: the option shuffle is a permutation (the multiset of options is
preserved), and it is exactly the spec's Fisher-Yates loop: for index `i`
from last down to 1 it swaps element `i` with the element at index
`r i % (i + 1)`, an index that always lies in `[0, i]`. -/
theorem shuffleOptions_is_fisher_yates (r : Nat → Nat) (xs : List QuizOption) :
    (shuffleOptions r xs).Perm xs ∧
    shuffleOptions r xs = fisherYatesSpec (fun i => r i % (i + 1)) xs ∧
    ∀ i, r i % (i + 1) ≤ i := by
  refine ⟨shuffleOptions_perm r xs, shuffleOptions_eq_spec r xs, fun i => ?_⟩
  have : r i % (i + 1) < i + 1 := Nat.mod_lt _ (by omega)
  omega

/-- C1: on a non-empty store `generateQuizQuestion` produces a question, its
option list contains exactly one option tagged correct, and that option's
text equals the question's correct answer. -/
theorem generateQuizQuestion_exactly_one_correct (words : List JapaneseWord)
    (rt rq : Nat) (rs rsh : Nat → Nat) (hw : words ≠ []) :
    ∃ q, generateQuizQuestion words rt rq rs rsh = some q ∧
      q.options.countP (fun o => o.isCorrect) = 1 ∧
      ∀ o ∈ q.options, o.isCorrect = true → o.text = q.correctAnswer := by
  obtain ⟨tw, htw, hmem⟩ := getRandomWord_eq_getElem words rt hw
  unfold generateQuizQuestion
  rw [if_neg (by simpa [getWordsCount, List.length_eq_zero] using hw)]
  rw [show getRandomWordForQuiz words rt = some tw from htw]
  refine ⟨_, rfl, ?_, ?_⟩
  · dsimp only
    rw [(shuffleOptions_perm rsh _).countP_eq]
    simp [List.countP_cons]
  · dsimp only
    intro o ho hc
    have ho2 := (shuffleOptions_perm rsh _).mem_iff.1 ho
    rcases List.mem_cons.1 ho2 with rfl | hmap
    · rfl
    · rcases List.mem_map.1 hmap with ⟨a, _, rfl⟩
      simp at hc

theorem generateQuizQuestion_exactly_one_correct_witness :
    ((generateQuizQuestion loadDefaultWords 0 0 (fun _ => 0) (fun _ => 0)).getD
        default).options.countP (fun o => o.isCorrect) = 1 := by
  obtain ⟨q, hq, hc, _⟩ := generateQuizQuestion_exactly_one_correct loadDefaultWords
    0 0 (fun _ => 0) (fun _ => 0) (by decide)
  rw [hq]
  exact hc

/-- C6 counterexample: on a malformed payload the failure is signalled by a
single notification of severity `error` (`showErrorMessage`), not severity
`warning`. -/
theorem loadVocabularyData_signals_error_not_warning :
    (loadVocabularyData (.payload { success := false, data := [] })).2.map
        (fun n => n.severity) = [Severity.error] ∧
    Severity.error ≠ Severity.warning := by
  exact ⟨rfl, by decide⟩

/-- C6 amended: on any failed load (request error, timeout, non-200 status,
parse error, or non-success payload) the collection is replaced by the
3-word fallback set, so `count()` returns 3, and the failure is signalled
exactly once by a non-fatal error notification. -/
theorem loadVocabularyData_fallback_on_failure (outcome : FetchOutcome)
    (h : loadFails outcome = true) :
    (loadVocabularyData outcome).1 = loadDefaultWords ∧
    getWordsCount (loadVocabularyData outcome).1 = 3 ∧
    (loadVocabularyData outcome).2 =
      [{ severity := .error, message := "無法載入日文單字數據，使用備用單字" }] := by
  cases outcome with
  | requestError => exact ⟨rfl, rfl, rfl⟩
  | parseError => exact ⟨rfl, rfl, rfl⟩
  | payload response =>
    have hs : response.success = false := by simpa [loadFails] using h
    simp [loadVocabularyData, hs, getWordsCount, loadDefaultWords]

theorem loadVocabularyData_fallback_on_failure_witness :
    (loadVocabularyData .requestError).1 = loadDefaultWords ∧
    getWordsCount (loadVocabularyData .requestError).1 = 3 ∧
    (loadVocabularyData .requestError).2 =
      [{ severity := .error, message := "無法載入日文單字數據，使用備用單字" }] :=
  loadVocabularyData_fallback_on_failure .requestError rfl

/-- C8: the example-sentence quiz returns `none` when no word has examples;
on success the target is drawn from the words with examples, the chosen
example is one of the target's examples, the correct answer is the target's
first meaning, and the prompt is the template embedding both sentence fields
of the chosen example. -/
theorem showExampleQuiz_spec (words : List JapaneseWord) (rw re : Nat)
    (rs rsh : Nat → Nat) :
    (getWordsWithExamples words = [] → showExampleQuiz words rw re rs rsh = none) ∧
    (∀ q, showExampleQuiz words rw re rs rsh = some q →
      q.targetWord ∈ getWordsWithExamples words ∧
      (∃ es, q.targetWord.examples = some es ∧ q.randomExample ∈ es) ∧
      q.correctAnswer = q.targetWord.chinese.first? ∧
      q.questionText = exampleQuestionText q.targetWord q.randomExample) := by
  constructor
  · intro hempty
    unfold showExampleQuiz
    split
    · rfl
    · rw [dif_pos (by simp [hempty])]
  · intro q hq
    unfold showExampleQuiz at hq
    split at hq
    · exact absurd hq (by simp)
    · simp only [] at hq
      split at hq
      · exact absurd hq (by simp)
      · next hne =>
        split at hq
        · exact absurd hq (by simp)
        · next ex heq =>
          simp only [Option.some.injEq] at hq
          subst hq
          have hlt : rw % (getWordsWithExamples words).length <
              (getWordsWithExamples words).length := Nat.mod_lt _ (Nat.pos_of_ne_zero hne)
          have hmem : (getWordsWithExamples words)[rw % (getWordsWithExamples words).length] ∈
              getWordsWithExamples words := List.getElem_mem _
          refine ⟨hmem, ?_, rfl, rfl⟩
          have hpred := (List.mem_filter.1 hmem).2
          rcases htw : (getWordsWithExamples words)[rw % (getWordsWithExamples words).length].examples with _ | es
          · rw [htw] at hpred
            simp at hpred
          · refine ⟨es, rfl, ?_⟩
            rw [htw] at heq
            exact List.getElem?_mem heq

def exampleWord : JapaneseWord :=
  { id := "9", japanese := .single "水", reading := .single "みず",
    kana := .single "みず", chinese := .multi ["水"], category := "名詞",
    examples := some [{ japanese := "水を飲む", chinese := "喝水" }] }

theorem showExampleQuiz_spec_witness :
    ((showExampleQuiz [exampleWord] 0 0 (fun _ => 0) (fun _ => 0)).getD
        default).correctAnswer =
      ((showExampleQuiz [exampleWord] 0 0 (fun _ => 0) (fun _ => 0)).getD
        default).targetWord.chinese.first? :=
  ((showExampleQuiz_spec [exampleWord] 0 0 (fun _ => 0) (fun _ => 0)).2
    ((showExampleQuiz [exampleWord] 0 0 (fun _ => 0) (fun _ => 0)).getD default)
    (by decide)).2.2.1
